import Mathlib

/-!
Verification of the ConsensusCluster repository (cluster.py) against its
natural-language specification.  The Python source is shallowly embedded:
numpy float matrices become functions into `ℚ`, loops become folds, and the
transcendental float collaborators (`math.e ** x`, `math.log`) become
explicit function parameters.  Samples are indexed by `Fin n`; a sample's
mutable nullable `cluster_id` is an `Option ℕ`.
-/

namespace ConsensusClusterRepo

/-- A square matrix of rationals indexed by sample indices, modelling the
numpy float arrays `sim_matrix_clustcount`, `sim_matrix_totalcount` and
`consensus_matrix` of `ConsensusCluster`. -/
def CMat (n : ℕ) : Type := Fin n → Fin n → ℚ

instance (n : ℕ) : DecidableEq (CMat n) := by
  unfold CMat
  infer_instance

instance (n : ℕ) : Zero (CMat n) := ⟨fun _ _ => 0⟩

/-- Entry access unfolding for the zero counter matrix. -/
theorem CMat.zero_apply (n : ℕ) (i j : Fin n) : (0 : CMat n) i j = 0 := rfl

/-- Embedding of `ConsensusCluster.upd_similarity_matrix` (cluster.py lines
666-683).  The double loop ranges over pairs `k < m` only; whenever both
labels are non-null the pair's `totalcount` entry is incremented, and
`clustcount` additionally when the labels coincide.  All other entries are
left unchanged. -/
def upd_similarity_matrix {n : ℕ} (labels : Fin n → Option ℕ)
    (clustcount totalcount : CMat n) : CMat n × CMat n :=
  (fun k m =>
    clustcount k m +
      if k < m then
        match labels k, labels m with
        | some a, some b => if a = b then 1 else 0
        | _, _ => 0
      else 0,
   fun k m =>
    totalcount k m +
      if k < m then
        match labels k, labels m with
        | some _, some _ => 1
        | _, _ => 0
      else 0)

/-- One application of `upd_similarity_matrix` for a given labelling,
as a step function on the pair of counter matrices. -/
def updStep {n : ℕ} (cnts : CMat n × CMat n) (labels : Fin n → Option ℕ) :
    CMat n × CMat n :=
  upd_similarity_matrix labels cnts.1 cnts.2

/-- The counter matrices after a sequence of clustering runs, each run
contributing its labelling; both counters start at the zero matrix as in
`ConsensusCluster.__init__`. -/
def countersAfter {n : ℕ} (runs : List (Fin n → Option ℕ)) : CMat n × CMat n :=
  runs.foldl updStep ((0 : CMat n), (0 : CMat n))

/-- Embedding of `ConsensusCluster._reset_clusters` (cluster.py lines
812-818): every sample's `cluster_id` is set to `None`. -/
def reset_clusters {n : ℕ} (_labels : Fin n → Option ℕ) : Fin n → Option ℕ :=
  fun _ => none

/-- State carried through `ConsensusCluster.run_clustering`: the current
sample labels and the two counter matrices. -/
structure RunState (n : ℕ) where
  labels : Fin n → Option ℕ
  clustcount : CMat n
  totalcount : CMat n

/-- Embedding of the helper `run` inside `ConsensusCluster.run_clustering`
(cluster.py lines 652-655): the base algorithm assigns labels (modelled as
an arbitrary relabelling function, since each algorithm only writes
`cluster_id`), then `upd_similarity_matrix` accumulates the counters, then
`_reset_clusters` nulls every label. -/
def runOne {n : ℕ} (s : RunState n) (alg : (Fin n → Option ℕ) → (Fin n → Option ℕ)) :
    RunState n :=
  let labels := alg s.labels
  let cnts := upd_similarity_matrix labels s.clustcount s.totalcount
  { labels := reset_clusters labels, clustcount := cnts.1, totalcount := cnts.2 }

/-- The state after a sequence of algorithm runs of the subsampling loop
(each element is one `run(alg, ...)` call, across all rounds). -/
def runAll {n : ℕ} (s : RunState n)
    (algs : List ((Fin n → Option ℕ) → (Fin n → Option ℕ))) : RunState n :=
  algs.foldl runOne s

/-- Embedding of `ConsensusCluster.gen_consensus_matrix` (cluster.py lines
685-707) restricted to its upper-triangular filling loop: starting from the
zero matrix `self.consensus_matrix`, for every pair `k < m` with a nonzero
total count the entry becomes `clustcount/totalcount`, forced to `0` when
that ratio is strictly below `thresh`; all other entries stay `0`. -/
def consensusUpper {n : ℕ} (clustcount totalcount : CMat n) (thresh : ℚ) :
    CMat n :=
  fun k m =>
    if k < m then
      if totalcount k m ≠ 0 then
        if clustcount k m / totalcount k m < thresh then 0
        else clustcount k m / totalcount k m
      else 0
    else 0

/-- Embedding of the return value of `gen_consensus_matrix`: the filled
upper-triangular matrix plus its transpose. -/
def gen_consensus_matrix {n : ℕ} (clustcount totalcount : CMat n)
    (thresh : ℚ) : CMat n :=
  fun i j =>
    consensusUpper clustcount totalcount thresh i j +
    consensusUpper clustcount totalcount thresh j i

/-- Embedding of `numpy.take(order, 1)` on a square matrix: select columns
according to `p`. -/
def takeCols {n : ℕ} (M : CMat n) (p : Fin n → Fin n) : CMat n :=
  fun i j => M i (p j)

/-- Embedding of transposition of a square matrix. -/
def transposeM {n : ℕ} (M : CMat n) : CMat n := fun i j => M j i

/-- Embedding of the final line of `ConsensusCluster.reorder_consensus`
(cluster.py line 810):
`consensus_matrix.take(best_order, 1).transpose().take(best_order, 1)`. -/
def reorder_consensus_matrix {n : ℕ} (M : CMat n) (p : Fin n → Fin n) :
    CMat n :=
  takeCols (transposeM (takeCols M p)) p

/-- The multiset of all entries of a square matrix. -/
def entriesMultiset {n : ℕ} (M : CMat n) : Multiset ℚ :=
  (Finset.univ : Finset (Fin n × Fin n)).val.map fun x => M x.1 x.2

/-- The multiset of entries of row `a` of a square matrix. -/
def rowMultiset {n : ℕ} (M : CMat n) (a : Fin n) : Multiset ℚ :=
  (Finset.univ : Finset (Fin n)).val.map fun b => M a b

/-- The multiset of entries of column `b` of a square matrix. -/
def colMultiset {n : ℕ} (M : CMat n) (b : Fin n) : Multiset ℚ :=
  (Finset.univ : Finset (Fin n)).val.map fun a => M a b

/-- The sum of all entries of a square matrix. -/
def totalSum {n : ℕ} (M : CMat n) : ℚ :=
  ∑ i : Fin n, ∑ j : Fin n, M i j

/-! PAMCluster (cluster.py lines 273-344).  Pairwise distances are read from
a distance matrix modelled as `ℕ → ℕ → ℚ`; medoids are lists of sample
indices. -/

/-- Python `min` over a list of rationals; the empty case never arises in
the source (`medoids` is nonempty). -/
def listMin : List ℚ → ℚ
  | [] => 0
  | [a] => a
  | a :: b :: rest => min a (listMin (b :: rest))

/-- Cost contribution of sample `j`: its minimum distance to any current
medoid, `min([ distance_matrix[x][j] for x in medoids ])`. -/
def medoidMin (D : ℕ → ℕ → ℚ) (medoids : List ℕ) (j : ℕ) : ℚ :=
  listMin (medoids.map fun x => D x j)

/-- The PAM objective (cluster.py lines 316 and 337): the sum over all
samples of the minimum distance to any current medoid. -/
def totalCost (D : ℕ → ℕ → ℚ) (num_samples : ℕ) (medoids : List ℕ) : ℚ :=
  ((List.range num_samples).map (medoidMin D medoids)).sum

/-- Descending insertion used by `sortDesc`. -/
def insertDesc (x : ℕ) : List ℕ → List ℕ
  | [] => [x]
  | y :: ys => if y ≤ x then x :: y :: ys else y :: insertDesc x ys

/-- Python `list.sort(reverse=True)` on a list of indices (cluster.py line
328); for distinct entries the result is the unique strictly descending
arrangement. -/
def sortDesc (l : List ℕ) : List ℕ := l.foldr insertDesc []

/-- The candidate list for one medoid slot (cluster.py lines 326-331):
`range(num_samples)` with the current medoid indices deleted, scanned in
ascending index order. -/
def searchSpace (num_samples : ℕ) (medoids : List ℕ) : List ℕ :=
  (List.range num_samples).filter fun x => x ∉ medoids

/-- State of the swap scan: current medoid list, current `old_cost`, and
the `swapped` flag. -/
def PamAcc : Type := List ℕ × ℚ × Bool

instance : DecidableEq PamAcc := by
  unfold PamAcc
  infer_instance

/-- One candidate evaluation for medoid slot `i` (cluster.py lines
333-342): `new_medoids` is the descending-sorted slot-start medoid list
`base` with position `i` replaced by the candidate; if its cost is strictly
below the current `old_cost` the swap is adopted (medoids and cost updated,
`swapped` set) and the scan continues with the accumulated state. -/
def scanCand (D : ℕ → ℕ → ℚ) (num_samples : ℕ) (base : List ℕ) (i : ℕ)
    (acc : PamAcc) (cand : ℕ) : PamAcc :=
  let nm := base.set i cand
  let nc := totalCost D num_samples nm
  if nc < acc.2.1 then (nm, nc, true) else acc

/-- The scan of one medoid slot over a candidate list. -/
def scanCands (D : ℕ → ℕ → ℚ) (num_samples : ℕ) (base : List ℕ) (i : ℕ)
    (cands : List ℕ) (acc : PamAcc) : PamAcc :=
  cands.foldl (scanCand D num_samples base i) acc

/-- The full scan of one medoid slot `i` (cluster.py lines 321-342): the
slot-start medoid list is copied and sorted descending (the in-place
aliased `not_search.sort(reverse=True)`), the candidate list excludes the
slot-start medoids, and every candidate is evaluated in index order. -/
def slotScan (D : ℕ → ℕ → ℚ) (num_samples : ℕ) (acc : PamAcc) (i : ℕ) :
    PamAcc :=
  let base := sortDesc acc.1
  scanCands D num_samples base i (searchSpace num_samples base) acc

/-- One full pass of the `while swapped` body (cluster.py lines 318-342):
`swapped` is cleared, then every medoid slot `0..K-1` is scanned in turn. -/
def pamPass (D : ℕ → ℕ → ℚ) (num_samples num_clusters : ℕ)
    (medoids : List ℕ) (old_cost : ℚ) : PamAcc :=
  (List.range num_clusters).foldl (slotScan D num_samples)
    (medoids, old_cost, false)

/-- The `while swapped` loop of `PAMCluster._cluster_data` (cluster.py
lines 312-344), with explicit fuel bounding the number of passes.  The real
loop terminates because each swapped pass strictly lowers the cost. -/
def pamLoop (D : ℕ → ℕ → ℚ) (num_samples num_clusters : ℕ) :
    ℕ → List ℕ → ℚ → List ℕ
  | 0, medoids, _ => medoids
  | fuel + 1, medoids, old_cost =>
    let r := pamPass D num_samples num_clusters medoids old_cost
    if r.2.2 then pamLoop D num_samples num_clusters fuel r.1 r.2.1
    else r.1

/-- Entry point of `PAMCluster._cluster_data`: the initial `old_cost` is
the cost of the initial medoid set. -/
def pam_cluster_data (D : ℕ → ℕ → ℚ) (num_samples num_clusters fuel : ℕ)
    (medoids : List ℕ) : List ℕ :=
  pamLoop D num_samples num_clusters fuel medoids
    (totalCost D num_samples medoids)

/-- Modelled from the claim's words, for comparison with `pamPass`: the
swap search adopts the first candidate replacement (slots from 0, then
candidates in index order) that strictly lowers the total cost, and
immediately restarts from slot 0 with the updated medoid set before any
further candidate is evaluated. -/
def firstImprovement (D : ℕ → ℕ → ℚ) (num_samples num_clusters : ℕ)
    (medoids : List ℕ) (old_cost : ℚ) : Option (List ℕ × ℚ) :=
  (List.range num_clusters).findSome? fun i =>
    let base := sortDesc medoids
    (searchSpace num_samples base).findSome? fun cand =>
      let nm := base.set i cand
      let nc := totalCost D num_samples nm
      if nc < old_cost then some (nm, nc) else none

/-- Modelled from the claim's words: the restart-on-first-improvement swap
search, with fuel. -/
def pamSpecLoop (D : ℕ → ℕ → ℚ) (num_samples num_clusters : ℕ) :
    ℕ → List ℕ → ℚ → List ℕ
  | 0, medoids, _ => medoids
  | fuel + 1, medoids, old_cost =>
    match firstImprovement D num_samples num_clusters medoids old_cost with
    | some (nm, nc) => pamSpecLoop D num_samples num_clusters fuel nm nc
    | none => medoids

/-- The concrete symmetric zero-diagonal distance matrix used to separate
the code's scan from the claim's restart semantics. -/
def D3 : ℕ → ℕ → ℚ := fun x j =>
  (([[0, 3, 2], [3, 0, 1], [2, 1, 0]] : List (List ℚ)).getD x []).getD j 0

/-- Invariant carried by the swap-scan state: the cost never rises above
the pass-entry cost, a set `swapped` flag certifies a strict decrease, and
a clear flag certifies the state is untouched. -/
def PamInv (medoids : List ℕ) (c0 : ℚ) (acc : PamAcc) : Prop :=
  acc.2.1 ≤ c0 ∧ (acc.2.2 = true → acc.2.1 < c0) ∧
    (acc.2.2 = false → acc = (medoids, c0, false))

theorem scanCand_pamInv {D : ℕ → ℕ → ℚ} {n : ℕ} {base : List ℕ} {i : ℕ}
    {medoids : List ℕ} {c0 : ℚ} {acc : PamAcc} (cand : ℕ)
    (h : PamInv medoids c0 acc) :
    PamInv medoids c0 (scanCand D n base i acc cand) := by
  unfold scanCand
  dsimp only
  split
  · rename_i hlt
    refine ⟨le_of_lt (lt_of_lt_of_le hlt h.1), fun _ => lt_of_lt_of_le hlt h.1,
      fun hc => ?_⟩
    simp at hc
  · exact h

theorem scanCands_pamInv {D : ℕ → ℕ → ℚ} {n : ℕ} {base : List ℕ} {i : ℕ}
    {medoids : List ℕ} {c0 : ℚ} :
    ∀ (cands : List ℕ) (acc : PamAcc), PamInv medoids c0 acc →
      PamInv medoids c0 (scanCands D n base i cands acc) := by
  intro cands
  induction cands with
  | nil => intro acc h; exact h
  | cons c cs ih =>
    intro acc h
    have : scanCands D n base i (c :: cs) acc =
        scanCands D n base i cs (scanCand D n base i acc c) := rfl
    rw [this]
    exact ih _ (scanCand_pamInv c h)

theorem slotScan_pamInv {D : ℕ → ℕ → ℚ} {n : ℕ} {medoids : List ℕ}
    {c0 : ℚ} {acc : PamAcc} (i : ℕ) (h : PamInv medoids c0 acc) :
    PamInv medoids c0 (slotScan D n acc i) :=
  scanCands_pamInv _ _ h

theorem foldl_slotScan_pamInv {D : ℕ → ℕ → ℚ} {n : ℕ} {medoids : List ℕ}
    {c0 : ℚ} : ∀ (slots : List ℕ) (acc : PamAcc), PamInv medoids c0 acc →
      PamInv medoids c0 (slots.foldl (slotScan D n) acc) := by
  intro slots
  induction slots with
  | nil => intro acc h; exact h
  | cons s ss ih =>
    intro acc h
    exact ih _ (slotScan_pamInv s h)

theorem pamPass_pamInv (D : ℕ → ℕ → ℚ) (n K : ℕ) (medoids : List ℕ)
    (c0 : ℚ) : PamInv medoids c0 (pamPass D n K medoids c0) :=
  foldl_slotScan_pamInv _ _
    ⟨le_refl c0, fun hc => by simp at hc, fun _ => rfl⟩

/-! Simulated-annealing reorder (cluster.py lines 743-807), run when no
merge tree exists.  Float energies become rationals; the float collaborator
`math.e ** x` becomes an explicit parameter `fexp`, and the uniform draw
`random.random()` becomes the explicit input `ran`.  The proposal
construction (random insertion) is irrelevant to the acceptance rule and is
passed in as the proposed order. -/

/-- The sum of consensus similarities of successive pairs of an order,
`sum([ cost(x[i], x[i+1], matrix) for i in range(sample_len - 1) ])`. -/
def adjacentSum (M : ℕ → ℕ → ℚ) : List ℕ → ℚ
  | a :: b :: rest => M a b + adjacentSum M (b :: rest)
  | _ => 0

/-- The SA energy of an order (cluster.py line 758): the squared sum of
adjacent-pair consensus values. -/
def saEnergy (M : ℕ → ℕ → ℚ) (x : List ℕ) : ℚ := (adjacentSum M x) ^ 2

/-- State threaded through the SA iterations: the current order, the best
energy and order seen so far, and the rejected-proposal counter. -/
structure SAState where
  order : List ℕ
  bestEnergy : ℚ
  bestOrder : List ℕ
  notAccepted : ℕ
deriving DecidableEq

/-- The state before the first SA iteration (cluster.py lines 760-761):
both the best energy and the best order are those of the warm-start
order, and nothing has been rejected. -/
def saStart (M : ℕ → ℕ → ℚ) (order : List ℕ) : SAState :=
  { order := order, bestEnergy := saEnergy M order, bestOrder := order,
    notAccepted := 0 }

/-- One acceptance decision of the SA loop (cluster.py lines 789-798).
`prop` is the proposed order (the current order after the random
insertion); `fexp` models `math.e ** x`; `ran` models `random.random()`.
If the proposal's energy is strictly below the current order's energy, the
proposal is kept only when `ran ≤ fexp ((newE - lastE)/temp)` and otherwise
the old order is restored and the rejection counted; otherwise the proposal
is kept, and when its energy strictly exceeds the best energy seen so far
it is additionally recorded as the new best. -/
def saStep (M : ℕ → ℕ → ℚ) (fexp : ℚ → ℚ) (temp ran : ℚ) (s : SAState)
    (prop : List ℕ) : SAState :=
  let lastE := saEnergy M s.order
  let newE := saEnergy M prop
  if newE < lastE then
    if ran > fexp ((newE - lastE) / temp) then
      { s with order := s.order, notAccepted := s.notAccepted + 1 }
    else
      { s with order := prop }
  else if newE > s.bestEnergy then
    { order := prop, bestEnergy := newE, bestOrder := prop,
      notAccepted := s.notAccepted }
  else
    { s with order := prop }

/-! SOMCluster (cluster.py lines 347-511).  The grid of node weight
vectors becomes a function `Fin vdim → Fin hdim → Fin L → ℚ`; the float
collaborators `math.e ** x` and `math.log x` become the explicit parameters
`fexp` and `flog`; the distance function is a parameter as in the source. -/

instance {ε α : Type} [DecidableEq ε] [DecidableEq α] :
    DecidableEq (Except ε α)
  | Except.ok a, Except.ok b =>
    if h : a = b then Decidable.isTrue (by rw [h])
    else Decidable.isFalse (by intro hc; cases hc; exact h rfl)
  | Except.ok _, Except.error _ => Decidable.isFalse (by intro hc; cases hc)
  | Except.error _, Except.ok _ => Decidable.isFalse (by intro hc; cases hc)
  | Except.error a, Except.error b =>
    if h : a = b then Decidable.isTrue (by rw [h])
    else Decidable.isFalse (by intro hc; cases hc; exact h rfl)

/-- A `vdim × hdim` grid of weight vectors of length `L`. -/
def Grid (V H L : ℕ) : Type := Fin V → Fin H → Fin L → ℚ

instance (V H L : ℕ) : DecidableEq (Grid V H L) := by
  unfold Grid
  infer_instance

/-- The all-zero grid, modelling `numpy.zeros((vdim, hdim, vec_len))`. -/
def zeroGrid (V H L : ℕ) : Grid V H L := fun _ _ _ => 0

/-- Python 2 `sys.maxint` on a 64-bit platform, as a rational; the BMU
search starts from it as a sentinel. -/
def pyMaxInt : ℚ := 2 ^ 63 - 1

/-- Python `int()` truncation toward zero of a rational. -/
def pyInt (q : ℚ) : ℤ := if 0 ≤ q then ⌊q⌋ else ⌈q⌉

/-- Chebyshev distance between two grid positions, the value memoized by
`SOMCluster._memo_chessboard_dists` (cluster.py lines 415-426). -/
def chessDist (i j k l : ℤ) : ℤ := max |i - k| |j - l|

/-- The inputs of `SOMCluster._train_data`: the distance function, the
current data matrix (one row per sample), the transcendental collaborators,
the learning rate and the epoch count. -/
structure SOMParams (V H L S : ℕ) where
  dist : (Fin L → ℚ) → (Fin L → ℚ) → ℚ
  dataM : Fin S → Fin L → ℚ
  fexp : ℚ → ℚ
  flog : ℚ → ℚ
  lr : ℚ
  numEpochs : ℕ

/-- The initial neighbourhood radius `(hdim + vdim) / 3.` passed by
`SOMCluster.__init__` (cluster.py line 400). -/
def somRadius (V H : ℕ) : ℚ := ((H : ℚ) + (V : ℚ)) / 3

/-- The time constant `num_epochs / math.log(radius)` (cluster.py line
431). -/
def tConst {V H L S : ℕ} (p : SOMParams V H L S) : ℚ :=
  (p.numEpochs : ℚ) / p.flog (somRadius V H)

/-- The decayed radius `radius * e ** (-t / t_const)` of epoch `t`. -/
def newRadius {V H L S : ℕ} (p : SOMParams V H L S) (t : ℕ) : ℚ :=
  somRadius V H * p.fexp (-(t : ℚ) / tConst p)

/-- The decayed learning rate `lr * e ** (-lr / t_const)` (cluster.py line
441); as in the source, it does not depend on the epoch. -/
def newLearn {V H L S : ℕ} (p : SOMParams V H L S) : ℚ :=
  p.lr * p.fexp (-p.lr / tConst p)

/-- The Gaussian denominator `2 * t * new_radius * new_radius` of epoch
`t`. -/
def rVal {V H L S : ℕ} (p : SOMParams V H L S) (t : ℕ) : ℚ :=
  2 * (t : ℚ) * newRadius p t * newRadius p t

/-- The best-matching-unit search for one sample (cluster.py lines
446-454): a row-major scan keeping the first strictly smaller distance,
starting from the sentinel `sys.maxint` with no node recorded. -/
def bmuSearch {V H L S : ℕ} (p : SOMParams V H L S) (nodes : Grid V H L)
    (x : Fin L → ℚ) : ℚ × Option (Fin V × Fin H) :=
  (List.finRange V).foldl
    (fun acc i =>
      (List.finRange H).foldl
        (fun acc2 j =>
          let d := p.dist (nodes i j) x
          if d < acc2.1 then (d, some (i, j)) else acc2)
        acc)
    (pyMaxInt, none)

/-- The exact message of the `ValueError` raised when no best-matching
unit was recorded (cluster.py line 460). -/
def somErrorMsg : String :=
  "Distance from nodes to data matrix too large? Try lowering learn rate."

/-- Membership of grid node `(i, j)` in the clipped bounding box around
the BMU `(y, x)` for the floored radius `radInt` (cluster.py lines
463-485). -/
def inBBox (V H : ℕ) (y : Fin V) (x : Fin H) (radInt : ℤ) (i : Fin V)
    (j : Fin H) : Bool :=
  (if (y : ℤ) > radInt then (y : ℤ) - radInt - 1 else 0) ≤ (i : ℤ) &&
  (i : ℤ) < min ((y : ℤ) + radInt + 1) (V : ℤ) &&
  (if (x : ℤ) > radInt then (x : ℤ) - radInt - 1 else 0) ≤ (j : ℤ) &&
  (j : ℤ) < min ((x : ℤ) + radInt + 1) (H : ℤ)

/-- Processing of one sample inside an epoch (cluster.py lines 444-491):
find the BMU; if none was recorded raise the `ValueError`; otherwise add to
the accumulator, for every node of the clipped bounding box, the influence
times the decayed learning rate times the residual. -/
def sampleStep {V H L S : ℕ} (p : SOMParams V H L S) (t : ℕ)
    (nodes : Grid V H L) (adj : Grid V H L) (k : Fin S) :
    Except String (Grid V H L) :=
  match (bmuSearch p nodes (p.dataM k)).2 with
  | none => Except.error somErrorMsg
  | some (y, x) =>
    let radInt := pyInt (newRadius p t)
    Except.ok fun i j l =>
      adj i j l +
        if inBBox V H y x radInt i j then
          p.fexp (-((chessDist y x i j : ℚ)) ^ 2 / rVal p t) * newLearn p *
            (p.dataM k l - nodes i j l)
        else 0

/-- The accumulation phase of one epoch: the samples are scanned in order,
each adding its deltas to the accumulator; the node weights are not touched
during the scan. -/
def epochAccum {V H L S : ℕ} (p : SOMParams V H L S) (t : ℕ)
    (nodes adj : Grid V H L) : Except String (Grid V H L) :=
  (List.finRange S).foldlM (sampleStep p t nodes) adj

/-- One full epoch `t` (cluster.py lines 438-494) on the pair (node
weights, accumulator): accumulate over all samples, then apply the
accumulator to the weights once (`nodes += node_adjust`) and clear it
(`node_adjust.fill(0)`). -/
def epochBody {V H L S : ℕ} (p : SOMParams V H L S) (t : ℕ)
    (s : Grid V H L × Grid V H L) :
    Except String (Grid V H L × Grid V H L) :=
  (epochAccum p t s.1 s.2).map fun adjF =>
    (fun i j l => s.1 i j l + adjF i j l, zeroGrid V H L)

/-- The epoch indices of the training loop, `xrange(1, num_epochs)`
(cluster.py line 438). -/
def somEpochRange (numEpochs : ℕ) : List ℕ := List.range' 1 (numEpochs - 1)

/-- Embedding of `SOMCluster._train_data` (cluster.py lines 428-496): the
accumulator starts at zero and the epochs of `xrange(1, num_epochs)` are
run in order; the trained node weights are returned. -/
def som_train_data {V H L S : ℕ} (p : SOMParams V H L S)
    (nodes0 : Grid V H L) : Except String (Grid V H L) :=
  ((somEpochRange p.numEpochs).foldlM (fun s t => epochBody p t s)
    (nodes0, zeroGrid V H L)).map (·.1)

/-- Modelled from the spec: the claim's reading that training runs exactly
`num_epochs` epochs, with the same per-epoch behaviour; compared with
`som_train_data`, which runs `xrange(1, num_epochs)`. -/
def som_train_data_claim {V H L S : ℕ} (p : SOMParams V H L S)
    (nodes0 : Grid V H L) : Except String (Grid V H L) :=
  ((List.range' 1 p.numEpochs).foldlM (fun s t => epochBody p t s)
    (nodes0, zeroGrid V H L)).map (·.1)

/-- Concrete SOM configuration exercising one epoch body: squared
one-dimensional distance, one sample with value 1, constant-1 collaborators
for `e ** x` and `log x`, unit learning rate, and a single configured
epoch. -/
def somCfgA : SOMParams 2 2 1 1 :=
  { dist := fun a b => (a 0 - b 0) ^ 2
    dataM := fun _ _ => 1
    fexp := fun _ => 1
    flog := fun _ => 1
    lr := 1
    numEpochs := 1 }

/-- Concrete SOM configuration whose distance function never falls below
the `sys.maxint` sentinel, so that no BMU is ever recorded. -/
def somCfgB : SOMParams 2 2 1 1 :=
  { dist := fun _ _ => 2 ^ 63
    dataM := fun _ _ => 1
    fexp := fun _ => 1
    flog := fun _ => 1
    lr := 1
    numEpochs := 2 }

/-! HierarchicalCluster (cluster.py lines 75-195).  The `treetype` module
is not part of the provided sources, so the merge-tree type is modelled
from the spec. -/

/-- Modelled from the spec: the `treetype.Tree` collaborator is missing
from the sources; per the spec it is a binary tree whose leaves carry a
sample index and whose internal nodes carry two children and a merge
distance, exposing the ordered sequence of leaf indices under it. -/
inductive HTree where
  | leaf (value : ℕ)
  | node (left right : HTree) (dist : ℚ)
deriving DecidableEq, Inhabited

/-- Modelled from the spec: the ordered sequence of leaf indices under a
tree (`tree.sequence`). -/
def HTree.sequence : HTree → List ℕ
  | HTree.leaf v => [v]
  | HTree.node l r _ => l.sequence ++ r.sequence

/-- The linkage distance of two active clusters (cluster.py line 165): the
caller-supplied aggregator applied to the row-major block of pairwise
distances between the two clusters' member indices.  The memoization cache
of the source is semantically transparent (the aggregator is a pure
function of the two member sequences) and is dropped. -/
def linkDist (D : ℕ → ℕ → ℚ) (lk : List ℚ → ℚ) (t1 t2 : HTree) : ℚ :=
  lk ((t1.sequence.map fun a => t2.sequence.map fun b => D a b).flatten)

/-- The scan for the closest pair of active clusters (cluster.py lines
153-171): all pairs `k < m` in ascending nested-loop order, keeping the
first strictly smaller linkage distance, starting from the `sys.maxint`
sentinel with no pair recorded. -/
def bestPair (D : ℕ → ℕ → ℚ) (lk : List ℚ → ℚ) (trees : List HTree) :
    ℚ × Option (ℕ × ℕ) :=
  (List.range trees.length).foldl
    (fun acc i =>
      (List.range' 1 (trees.length - i - 1)).foldl
        (fun acc2 j =>
          let d := linkDist D lk (trees.getD i default)
            (trees.getD (i + j) default)
          if d < acc2.1 then (d, some (i, i + j)) else acc2)
        acc)
    (pyMaxInt, none)

/-- Embedding of `HierarchicalCluster._assign_clusters` (cluster.py lines
178-195): every sample index under the `i`-th active tree receives the
cluster label `i`. -/
def assignClusters (trees : List HTree) (labels : List (Option ℕ)) :
    List (Option ℕ) :=
  trees.enum.foldl
    (fun ls p => p.2.sequence.foldl (fun ls2 idx => ls2.set idx (some p.1)) ls)
    labels

/-- One merge of the agglomerative loop (cluster.py lines 173-176): the
new internal node is appended, then the two children are deleted at the
larger index first.  When no pair was recorded (impossible for the inputs
the source is run on, which it would crash on) the list is returned
unchanged. -/
def hierStep (D : ℕ → ℕ → ℚ) (lk : List ℚ → ℚ) (trees : List HTree) :
    List HTree :=
  let b := bestPair D lk trees
  match b.2 with
  | none => trees
  | some (k, m) =>
    ((trees ++ [HTree.node (trees.getD k default) (trees.getD m default)
      b.1]).eraseIdx m).eraseIdx k

/-- The merging loop of `HierarchicalCluster._cluster_data` (cluster.py
lines 136-176), with fuel bounding the merge count: while more than one
active cluster remains, the moment the active count equals K the cluster
labels are assigned, and then the closest pair is merged. -/
def hierLoop (D : ℕ → ℕ → ℚ) (lk : List ℚ → ℚ) (K : ℕ) :
    ℕ → List HTree → List (Option ℕ) → List HTree × List (Option ℕ)
  | 0, ts, ls => (ts, ls)
  | fuel + 1, ts, ls =>
    if 1 < ts.length then
      hierLoop D lk K fuel (hierStep D lk ts)
        (if ts.length = K then assignClusters ts ls else ls)
    else (ts, ls)

/-- Embedding of a `HierarchicalCluster` run on `n` samples with all
labels initially null: the initial forest is one leaf per sample index
(cluster.py line 126) and `n` units of fuel cover the `n - 1` merges. -/
def hier_cluster_data (D : ℕ → ℕ → ℚ) (lk : List ℚ → ℚ) (n K : ℕ) :
    List HTree × List (Option ℕ) :=
  hierLoop D lk K n ((List.range n).map HTree.leaf) (List.replicate n none)

/-- Average linkage on the flattened distance block, `numpy.ndarray.mean`. -/
def meanLinkage (l : List ℚ) : ℚ := l.sum / l.length

/-! Concrete inputs used by witnesses and counterexamples. -/

/-- A unit distance matrix with zero diagonal. -/
def unitD : ℕ → ℕ → ℚ := fun i j => if i = j then 0 else 1

/-- A concrete consensus-matrix stand-in for the SA witness. -/
def saM : ℕ → ℕ → ℚ := fun a b => (a : ℚ) + (b : ℚ)

/-- The all-ones grid accumulated by one epoch of `somCfgA`. -/
def oneGridA : Grid 2 2 1 := fun _ _ _ => 1

/-- Concrete upper-triangular cluster counter on two samples. -/
def cl2 : CMat 2 := fun i j => if i < j then 1 else 0

/-- Concrete upper-triangular total counter on two samples. -/
def tt2 : CMat 2 := fun i j => if i < j then 2 else 0

/-- Concrete symmetric consensus matrix on two samples. -/
def M2ex : CMat 2 := fun i j => if i = j then 1 else 1 / 2

/-- Concrete base-algorithm labelling for the reset witness. -/
def algEx : (Fin 2 → Option ℕ) → (Fin 2 → Option ℕ) := fun _ _ => some 0

/-- Concrete labelling for the counter-invariant witness. -/
def labEx : Fin 2 → Option ℕ := fun _ => some 0

/-- Concrete initial orchestration state on two samples with null labels
and zero counters. -/
def rs2 : RunState 2 :=
  { labels := fun _ => none, clustcount := 0, totalcount := 0 }

/-- The invariant of the two co-occurrence counter matrices: entrywise
`0 ≤ clustcount ≤ totalcount`, and both are strictly upper triangular. -/
def CounterInv {n : ℕ} (s : CMat n × CMat n) : Prop :=
  ∀ i j : Fin n, 0 ≤ s.1 i j ∧ s.1 i j ≤ s.2 i j ∧
    (¬ i < j → s.1 i j = 0 ∧ s.2 i j = 0)

/-! Theorems. -/

theorem consensusUpper_bounds {n : ℕ} (clust total : CMat n) (thresh : ℚ)
    (h : ∀ i j : Fin n, i < j → 0 ≤ clust i j ∧ clust i j ≤ total i j)
    (i j : Fin n) :
    0 ≤ consensusUpper clust total thresh i j ∧
      consensusUpper clust total thresh i j ≤ 1 := by
  unfold consensusUpper
  by_cases hij : i < j
  · rw [if_pos hij]
    by_cases hz : total i j ≠ 0
    · rw [if_pos hz]
      obtain ⟨h0, h1⟩ := h i j hij
      have hpos : 0 < total i j := lt_of_le_of_ne (le_trans h0 h1) (Ne.symm hz)
      by_cases ht : clust i j / total i j < thresh
      · rw [if_pos ht]
        exact ⟨le_refl 0, zero_le_one⟩
      · rw [if_neg ht]
        exact ⟨div_nonneg h0 (le_of_lt hpos), (div_le_one hpos).mpr h1⟩
    · rw [if_neg hz]
      exact ⟨le_refl 0, zero_le_one⟩
  · rw [if_neg hij]
    exact ⟨le_refl 0, zero_le_one⟩

theorem consensusUpper_lower_zero {n : ℕ} (clust total : CMat n) (thresh : ℚ)
    {i j : Fin n} (h : ¬ i < j) : consensusUpper clust total thresh i j = 0 := by
  unfold consensusUpper
  rw [if_neg h]

/-- C1.  For every pair of sample indices `i < j`, the consensus matrix
built by `gen_consensus_matrix` equals `clustcount i j / totalcount i j`
when `totalcount i j > 0` and `0` otherwise, with any computed ratio
strictly below the configured threshold forced to `0`; every entry of the
resulting matrix lies in `[0, 1]`, and the matrix is symmetric.  The
hypothesis `0 ≤ clustcount ≤ totalcount` on upper pairs is the counter
invariant established by `upd_similarity_matrix` (see the C10 theorem). -/
theorem C1_gen_consensus_matrix_correct {n : ℕ} (clust total : CMat n)
    (thresh : ℚ)
    (h : ∀ i j : Fin n, i < j → 0 ≤ clust i j ∧ clust i j ≤ total i j) :
    (∀ i j : Fin n, i < j →
      gen_consensus_matrix clust total thresh i j =
        if 0 < total i j then
          (if clust i j / total i j < thresh then 0
           else clust i j / total i j)
        else 0) ∧
    (∀ i j : Fin n, 0 ≤ gen_consensus_matrix clust total thresh i j ∧
      gen_consensus_matrix clust total thresh i j ≤ 1) ∧
    (∀ i j : Fin n, gen_consensus_matrix clust total thresh i j =
      gen_consensus_matrix clust total thresh j i) := by
  refine ⟨?_, ?_, ?_⟩
  · intro i j hij
    have hji : ¬ j < i := fun hc => lt_asymm hij hc
    unfold gen_consensus_matrix
    rw [consensusUpper_lower_zero clust total thresh hji, add_zero]
    unfold consensusUpper
    rw [if_pos hij]
    obtain ⟨h0, h1⟩ := h i j hij
    by_cases hp : 0 < total i j
    · rw [if_pos (ne_of_gt hp), if_pos hp]
    · have hz : total i j = 0 := le_antisymm (not_lt.mp hp) (le_trans h0 h1)
      rw [if_neg (fun hc => hc hz), if_neg hp]
  · intro i j
    unfold gen_consensus_matrix
    obtain ⟨hij0, hij1⟩ := consensusUpper_bounds clust total thresh h i j
    obtain ⟨hji0, hji1⟩ := consensusUpper_bounds clust total thresh h j i
    refine ⟨add_nonneg hij0 hji0, ?_⟩
    rcases lt_trichotomy i j with hlt | heq | hgt
    · rw [consensusUpper_lower_zero clust total thresh
        (fun hc : j < i => lt_asymm hlt hc), add_zero]
      exact hij1
    · rw [heq, consensusUpper_lower_zero clust total thresh (lt_irrefl j)]
      norm_num
    · rw [consensusUpper_lower_zero clust total thresh
        (fun hc : i < j => lt_asymm hgt hc), zero_add]
      exact hji1
  · intro i j
    unfold gen_consensus_matrix
    exact add_comm _ _

/-- Witness for C1 at concrete counters with `clust = 1`, `total = 2` on
the upper pair and threshold `1/4`. -/
theorem C1_gen_consensus_matrix_witness :
    gen_consensus_matrix cl2 tt2 (1 / 4) 0 1 = 1 / 2 ∧
    (0 ≤ gen_consensus_matrix cl2 tt2 (1 / 4) 1 0 ∧
      gen_consensus_matrix cl2 tt2 (1 / 4) 1 0 ≤ 1) ∧
    gen_consensus_matrix cl2 tt2 (1 / 4) 0 1 =
      gen_consensus_matrix cl2 tt2 (1 / 4) 1 0 := by
  have h := C1_gen_consensus_matrix_correct cl2 tt2 (1 / 4)
    (by with_unfolding_all decide)
  refine ⟨?_, h.2.1 1 0, h.2.2 0 1⟩
  have e := h.1 0 1 (by decide)
  rw [e]
  with_unfolding_all decide

theorem updStep_counterInv {n : ℕ} (s : CMat n × CMat n)
    (f : Fin n → Option ℕ) (h : CounterInv s) : CounterInv (updStep s f) := by
  intro i j
  obtain ⟨h0, h1, h2⟩ := h i j
  unfold updStep upd_similarity_matrix
  dsimp only
  by_cases hij : i < j
  · rw [if_pos hij, if_pos hij]
    have hXY :
        (0 : ℚ) ≤ (match f i, f j with
          | some a, some b => if a = b then (1 : ℚ) else 0
          | _, _ => 0) ∧
        (match f i, f j with
          | some a, some b => if a = b then (1 : ℚ) else 0
          | _, _ => 0) ≤ (match f i, f j with
          | some _, some _ => (1 : ℚ)
          | _, _ => 0) := by
      cases f i <;> cases f j <;> simp only
      · exact ⟨le_refl 0, le_refl 0⟩
      · exact ⟨le_refl 0, le_refl 0⟩
      · exact ⟨le_refl 0, le_refl 0⟩
      · constructor
        · split <;> norm_num
        · split <;> norm_num
    exact ⟨add_nonneg h0 hXY.1, add_le_add h1 hXY.2,
      fun hc => absurd hij hc⟩
  · rw [if_neg hij, if_neg hij]
    simp only [add_zero]
    exact ⟨h0, h1, h2⟩

theorem foldl_updStep_counterInv {n : ℕ} :
    ∀ (runs : List (Fin n → Option ℕ)) (s : CMat n × CMat n),
      CounterInv s → CounterInv (runs.foldl updStep s) := by
  intro runs
  induction runs with
  | nil => intro s h; exact h
  | cons f fs ih => intro s h; exact ih _ (updStep_counterInv s f h)

/-- C10.  At every point during and after the rounds — that is, after any
sequence of `upd_similarity_matrix` applications starting from the zero
counters — every pair of sample indices satisfies
`0 ≤ clustcount i j ≤ totalcount i j`, and both counter matrices are
strictly upper triangular: every entry with `i ≥ j` (diagonal included)
remains zero. -/
theorem C10_counter_invariants {n : ℕ} (runs : List (Fin n → Option ℕ))
    (i j : Fin n) :
    0 ≤ (countersAfter runs).1 i j ∧
    (countersAfter runs).1 i j ≤ (countersAfter runs).2 i j ∧
    (¬ i < j → (countersAfter runs).1 i j = 0 ∧
      (countersAfter runs).2 i j = 0) :=
  foldl_updStep_counterInv runs _
    (fun _ _ => ⟨le_refl 0, le_refl 0, fun _ => ⟨rfl, rfl⟩⟩) i j

/-- Witness for C10 after one clustering run on two samples. -/
theorem C10_counter_invariants_witness :
    (countersAfter [labEx]).1 1 0 = 0 ∧ (countersAfter [labEx]).2 1 0 = 0 ∧
    (countersAfter [labEx]).1 0 1 ≤ (countersAfter [labEx]).2 0 1 := by
  have h := C10_counter_invariants [labEx] (1 : Fin 2) (0 : Fin 2)
  exact ⟨(h.2.2 (by decide)).1, (h.2.2 (by decide)).2,
    (C10_counter_invariants [labEx] (0 : Fin 2) (1 : Fin 2)).2.1⟩

/-- C7.  After each base algorithm's run has had its co-occurrence
counters accumulated, every sample's cluster label is reset to null before
the next algorithm or round runs; consequently, when the labels are null
before the first run (as the spec's data model requires), all sample
cluster labels are null at the start of every clustering run of the
subsampling loop. -/
theorem C7_labels_reset_null {n : ℕ}
    (algs : List ((Fin n → Option ℕ) → (Fin n → Option ℕ)))
    (s : RunState n) :
    (∀ (a : (Fin n → Option ℕ) → (Fin n → Option ℕ)) (i : Fin n),
      (runOne s a).labels i = none) ∧
    ((∀ i, s.labels i = none) → ∀ i, (runAll s algs).labels i = none) := by
  constructor
  · intro a i
    rfl
  · induction algs generalizing s with
    | nil => intro h i; exact h i
    | cons a as ih => intro _ i; exact ih (runOne s a) (fun _ => rfl) i

/-- Witness for C7 with two concrete runs on two samples. -/
theorem C7_labels_reset_null_witness :
    (runOne rs2 algEx).labels 1 = none ∧
    (runAll rs2 [algEx, algEx]).labels 0 = none :=
  ⟨(C7_labels_reset_null [algEx, algEx] rs2).1 algEx 1,
   (C7_labels_reset_null [algEx, algEx] rs2).2 (fun _ => rfl) 0⟩

/-- C2.  For every SA iteration: if the proposed order's energy is
strictly lower than the current order's energy, the proposal is accepted
only when the uniform draw does not exceed the Metropolis quantity
`e ** ((newE - lastE) / temp)` for the current temperature, and otherwise
the old order is kept (and the best data is untouched either way); if the
proposed order's energy strictly exceeds the best energy seen so far, it
is accepted unconditionally and recorded as the new best order.  The
second behaviour is stated on reachable states, whose invariant
`saEnergy order ≤ bestEnergy` holds at the start and is preserved by every
step (third and fourth conjuncts). -/
theorem C2_sa_acceptance (M : ℕ → ℕ → ℚ) (fexp : ℚ → ℚ) (temp ran : ℚ)
    (s : SAState) (prop : List ℕ) :
    (saEnergy M prop < saEnergy M s.order →
      saStep M fexp temp ran s prop =
        if ran > fexp ((saEnergy M prop - saEnergy M s.order) / temp) then
          { s with notAccepted := s.notAccepted + 1 }
        else { s with order := prop }) ∧
    (saEnergy M s.order ≤ s.bestEnergy → s.bestEnergy < saEnergy M prop →
      saStep M fexp temp ran s prop =
        { order := prop, bestEnergy := saEnergy M prop, bestOrder := prop,
          notAccepted := s.notAccepted }) ∧
    (saEnergy M s.order ≤ s.bestEnergy →
      saEnergy M (saStep M fexp temp ran s prop).order ≤
        (saStep M fexp temp ran s prop).bestEnergy) ∧
    (∀ order0 : List ℕ,
      saEnergy M (saStart M order0).order ≤ (saStart M order0).bestEnergy) := by
  refine ⟨?_, ?_, ?_, ?_⟩
  · intro h
    unfold saStep
    rw [if_pos h]
  · intro h1 h2
    have hnl : ¬ saEnergy M prop < saEnergy M s.order :=
      not_lt.mpr (le_trans h1 (le_of_lt h2))
    unfold saStep
    rw [if_neg hnl, if_pos h2]
  · intro h1
    unfold saStep
    dsimp only
    split_ifs with ha hb hc
    · exact h1
    · exact le_trans (le_of_lt ha) h1
    · exact le_refl _
    · exact not_lt.mp hc
  · intro order0
    exact le_refl _

/-- Witness for C2: a rejected improving proposal and an unconditionally
accepted best-beating proposal, from the warm start `[0, 1, 2]`. -/
theorem C2_sa_acceptance_witness :
    saStep saM (fun _ => 1) 1 2 (saStart saM [0, 1, 2]) [1, 0, 2] =
      { order := [0, 1, 2], bestEnergy := 16, bestOrder := [0, 1, 2],
        notAccepted := 1 } ∧
    saStep saM (fun _ => 1) 1 2 (saStart saM [0, 1, 2]) [0, 2, 1] =
      { order := [0, 2, 1], bestEnergy := 25, bestOrder := [0, 2, 1],
        notAccepted := 0 } := by
  constructor
  · have h := (C2_sa_acceptance saM (fun _ => 1) 1 2 (saStart saM [0, 1, 2])
      [1, 0, 2]).1 (by with_unfolding_all decide)
    rw [h]
    with_unfolding_all decide
  · have h := (C2_sa_acceptance saM (fun _ => 1) 1 2 (saStart saM [0, 1, 2])
      [0, 2, 1]).2.1 (by with_unfolding_all decide)
      (by with_unfolding_all decide)
    rw [h]
    with_unfolding_all decide

/-- Counterexample to C3 as stated.  With the symmetric distance matrix
`D3` and one medoid slot starting at `[0]` (costs: `[0] ↦ 5`, `[1] ↦ 4`,
`[2] ↦ 3`), the first improving candidate of the scan is `1` (as
`firstImprovement` confirms), yet the code's pass ends with medoids `[2]`:
after adopting `[1]` the scan went on to evaluate and adopt candidate `2`
instead of restarting from slot 0 with `[1]` before any further candidate
was evaluated. -/
theorem C3_counterexample_no_restart :
    pamPass D3 3 1 [0] (totalCost D3 3 [0]) = ([2], 3, true) ∧
    firstImprovement D3 3 1 [0] (totalCost D3 3 [0]) = some ([1], 4) ∧
    ([2] : List ℕ) ≠ [1] := by
  with_unfolding_all decide

/-- C3 as amended.  In `PAMCluster._cluster_data`, a candidate that
strictly lowers the current total cost is adopted at once (medoid set and
cost updated, `swapped` set) and the scan then continues with the
remaining candidates and slots against the updated state — it does not
restart mid-pass; the scan returns to slot 0 only when a completed pass
had adopted some swap.  Accordingly a pass never raises the cost, a pass
that set `swapped` strictly lowered it, and a pass that did not leaves the
medoid set and cost untouched. -/
theorem C3_pam_scan_continues (D : ℕ → ℕ → ℚ) (n K : ℕ) (base : List ℕ)
    (i cand : ℕ) (rest : List ℕ) (acc : PamAcc) (medoids : List ℕ)
    (c0 : ℚ) (fuel : ℕ) :
    scanCands D n base i (cand :: rest) acc =
      scanCands D n base i rest (scanCand D n base i acc cand) ∧
    (pamPass D n K medoids c0).2.1 ≤ c0 ∧
    ((pamPass D n K medoids c0).2.2 = true →
      (pamPass D n K medoids c0).2.1 < c0) ∧
    ((pamPass D n K medoids c0).2.2 = false →
      pamPass D n K medoids c0 = (medoids, c0, false)) ∧
    pamLoop D n K (fuel + 1) medoids c0 =
      (if (pamPass D n K medoids c0).2.2 then
        pamLoop D n K fuel (pamPass D n K medoids c0).1
          (pamPass D n K medoids c0).2.1
      else (pamPass D n K medoids c0).1) := by
  have h := pamPass_pamInv D n K medoids c0
  exact ⟨rfl, h.1, h.2.1, h.2.2, rfl⟩

/-- Witness for C3's amended statement at the counterexample input: the
pass set `swapped` and strictly lowered the cost. -/
theorem C3_pam_scan_continues_witness :
    (pamPass D3 3 1 [0] 5).2.2 = true ∧ (pamPass D3 3 1 [0] 5).2.1 < 5 := by
  refine ⟨by with_unfolding_all decide, ?_⟩
  exact (C3_pam_scan_continues D3 3 1 [] 0 0 [] ([], 0, false) [0] 5 0).2.2.1
    (by with_unfolding_all decide)

set_option maxRecDepth 40000 in
/-- C4, evaluated at the failing input.  On two samples with K = 1,
`HierarchicalCluster._cluster_data` never assigns: the `len(tree) == K`
check is only reached while `len(tree) > 1`, so after the final merge the
loop exits without calling `_assign_clusters` and every label stays null —
contradicting the claim (and the class's own documentation) that K = 1
assigns one shared label after the final merge.  With K = N = 2 the
assignment does fire before any merge, giving distinct labels. -/
theorem C4_hier_k1_never_assigns :
    (hier_cluster_data unitD meanLinkage 2 1).2 = [none, none] ∧
    (hier_cluster_data unitD meanLinkage 2 2).2 = [some 0, some 1] := by
  with_unfolding_all decide

set_option maxRecDepth 40000 in
/-- Counterexample to C5 as stated.  With one configured epoch
(`num_epochs = 1`) the code's training loop `xrange(1, num_epochs)` runs
zero epochs and returns the initial nodes unchanged, whereas running
exactly `num_epochs` epochs (the claim, `som_train_data_claim`) changes
the nodes of this configuration. -/
theorem C5_counterexample_epoch_count :
    som_train_data somCfgA (zeroGrid 2 2 1) = Except.ok (zeroGrid 2 2 1) ∧
    som_train_data_claim somCfgA (zeroGrid 2 2 1) ≠
      Except.ok (zeroGrid 2 2 1) := by
  with_unfolding_all decide

/-- C5 as amended.  SOM training runs exactly `num_epochs - 1` epochs (the
loop is `for t in xrange(1, num_epochs)`), and within each epoch all
weight deltas accumulated over the samples are applied to the node weights
once at epoch end (batch update), after which the accumulator is reset to
zero. -/
theorem C5_som_epochs_batch_update {V H L S : ℕ} (p : SOMParams V H L S)
    (t : ℕ) (nodes adj adjF : Grid V H L)
    (h : epochAccum p t nodes adj = Except.ok adjF) :
    (somEpochRange p.numEpochs).length = p.numEpochs - 1 ∧
    som_train_data p nodes = ((somEpochRange p.numEpochs).foldlM
      (fun s t2 => epochBody p t2 s) (nodes, zeroGrid V H L)).map (·.1) ∧
    epochBody p t (nodes, adj) =
      Except.ok (fun i j l => nodes i j l + adjF i j l, zeroGrid V H L) := by
  refine ⟨List.length_range' .., rfl, ?_⟩
  unfold epochBody
  rw [h]
  rfl

set_option maxRecDepth 40000 in
/-- Witness for C5's amended statement: one concrete epoch accumulates the
all-ones delta grid, applies it once, and resets the accumulator. -/
theorem C5_som_epochs_batch_update_witness :
    (somEpochRange somCfgA.numEpochs).length = somCfgA.numEpochs - 1 ∧
    epochBody somCfgA 1 (zeroGrid 2 2 1, zeroGrid 2 2 1) =
      Except.ok (fun i j l => zeroGrid 2 2 1 i j l + oneGridA i j l,
        zeroGrid 2 2 1) := by
  have h : epochAccum somCfgA 1 (zeroGrid 2 2 1) (zeroGrid 2 2 1) =
      Except.ok oneGridA := by with_unfolding_all decide
  exact ⟨(C5_som_epochs_batch_update somCfgA 1 _ _ _ h).1,
    (C5_som_epochs_batch_update somCfgA 1 _ _ _ h).2.2⟩

theorem foldl_fixed {α β : Type} (f : α → β → α) (c : α)
    (hf : ∀ b, f c b = c) (l : List β) : l.foldl f c = c := by
  induction l with
  | nil => rfl
  | cons b bs ih => rw [List.foldl_cons, hf b]; exact ih

theorem bmuSearch_none {V H L S : ℕ} (p : SOMParams V H L S)
    (hd : ∀ a b, ¬ p.dist a b < pyMaxInt) (nodes : Grid V H L)
    (x : Fin L → ℚ) : bmuSearch p nodes x = (pyMaxInt, none) := by
  unfold bmuSearch
  refine foldl_fixed _ _ (fun i => ?_) _
  refine foldl_fixed _ _ (fun j => ?_) _
  exact if_neg (hd _ _)

theorem sampleStep_error {V H L S : ℕ} (p : SOMParams V H L S)
    (hd : ∀ a b, ¬ p.dist a b < pyMaxInt) (t : ℕ)
    (nodes adj : Grid V H L) (k : Fin S) :
    sampleStep p t nodes adj k = Except.error somErrorMsg := by
  unfold sampleStep
  rw [bmuSearch_none p hd nodes (p.dataM k)]

theorem epochAccum_error {V H L S : ℕ} (p : SOMParams V H L S)
    (hd : ∀ a b, ¬ p.dist a b < pyMaxInt) (hS : 0 < S) (t : ℕ)
    (nodes adj : Grid V H L) :
    epochAccum p t nodes adj = Except.error somErrorMsg := by
  unfold epochAccum
  obtain ⟨S2, rfl⟩ : ∃ k, S = k + 1 :=
    Nat.exists_eq_succ_of_ne_zero (Nat.pos_iff_ne_zero.mp hS)
  rw [List.finRange_succ_eq_map, List.foldlM_cons,
    sampleStep_error p hd t nodes adj 0]
  rfl

/-- C8 as amended.  During SOM training, if no finite best-matching-unit
distance is found (no node distance ever falls strictly below the
`sys.maxint` sentinel), training raises a `ValueError` with the fixed
message "Distance from nodes to data matrix too large? Try lowering learn
rate." — it does not continue, but the message names neither the offending
sample nor the epoch. -/
theorem C8_som_bmu_error {V H L S : ℕ} (p : SOMParams V H L S)
    (nodes0 : Grid V H L) (hd : ∀ a b, ¬ p.dist a b < pyMaxInt)
    (hS : 0 < S) (hE : 2 ≤ p.numEpochs) :
    som_train_data p nodes0 = Except.error somErrorMsg := by
  unfold som_train_data somEpochRange
  obtain ⟨m, hm⟩ : ∃ m, p.numEpochs - 1 = m + 1 := ⟨p.numEpochs - 2, by omega⟩
  rw [hm, List.range'_succ, List.foldlM_cons]
  have he : epochBody p 1 (nodes0, zeroGrid V H L) =
      Except.error somErrorMsg := by
    unfold epochBody
    rw [epochAccum_error p hd hS 1 nodes0 (zeroGrid V H L)]
    rfl
  rw [he]
  rfl

/-- Witness for C8's amended statement at the concrete configuration whose
distance function never falls below the sentinel. -/
theorem C8_som_bmu_error_witness :
    som_train_data somCfgB (zeroGrid 2 2 1) = Except.error somErrorMsg :=
  C8_som_bmu_error somCfgB (zeroGrid 2 2 1)
    (fun _ _ => by
      show ¬ ((2 : ℚ) ^ 63) < pyMaxInt
      with_unfolding_all decide)
    (by decide) (by decide)

set_option maxRecDepth 40000 in
/-- Counterexample to C8 as stated.  The run that fails on sample index 0
in epoch 1 raises the fixed message, which contains neither the digit "0"
(the offending sample) nor the digit "1" (the epoch) — indeed no digits at
all — so the error names neither the sample nor the epoch. -/
theorem C8_counterexample_error_message :
    som_train_data somCfgB (zeroGrid 2 2 1) = Except.error somErrorMsg ∧
    ¬ List.IsInfix "0".data somErrorMsg.data ∧
    ¬ List.IsInfix "1".data somErrorMsg.data := by
  with_unfolding_all decide

theorem map_univ_perm {α : Type} [Fintype α] (e : Equiv.Perm α) :
    Finset.univ.val.map ⇑e = Finset.univ.val := by
  have h := Finset.map_univ_equiv e
  calc Finset.univ.val.map ⇑e
      = Finset.univ.val.map ⇑e.toEmbedding := by rw [Equiv.coe_toEmbedding]
    _ = (Finset.univ.map e.toEmbedding).val := (Finset.map_val ..).symm
    _ = Finset.univ.val := by rw [h]

/-- C9.  For every symmetric consensus matrix and every permutation chosen
by reordering, the reordered matrix
`M.take(best_order, 1).transpose().take(best_order, 1)` applies the same
permutation jointly to rows and columns (`reordered a b = M (p a) (p b)`);
hence symmetry, the multiset of matrix entries, the total sum, and each
row's and column's value multiset (up to the row/column relabelling by
`p`) are all preserved by reordering. -/
theorem C9_reorder_joint_permutation {n : ℕ} (M : CMat n)
    (p : Equiv.Perm (Fin n)) (hsym : ∀ i j, M i j = M j i) :
    (∀ a b, reorder_consensus_matrix M (⇑p) a b = M (p a) (p b)) ∧
    (∀ a b, reorder_consensus_matrix M (⇑p) a b =
      reorder_consensus_matrix M (⇑p) b a) ∧
    entriesMultiset (reorder_consensus_matrix M (⇑p)) = entriesMultiset M ∧
    totalSum (reorder_consensus_matrix M (⇑p)) = totalSum M ∧
    (∀ a, rowMultiset (reorder_consensus_matrix M (⇑p)) a =
      rowMultiset M (p a)) ∧
    (∀ b, colMultiset (reorder_consensus_matrix M (⇑p)) b =
      colMultiset M (p b)) := by
  have hts : ∀ N : CMat n, totalSum N = (entriesMultiset N).sum := by
    intro N
    unfold totalSum entriesMultiset
    rw [← Finset.sum_product Finset.univ Finset.univ
      (fun x : Fin n × Fin n => N x.1 x.2), Finset.univ_product_univ]
    rfl
  have hq : entriesMultiset (reorder_consensus_matrix M (⇑p)) =
      entriesMultiset M := by
    have h3 : entriesMultiset (reorder_consensus_matrix M (⇑p)) =
        Finset.univ.val.map ((fun y : Fin n × Fin n => M y.1 y.2) ∘
          ⇑((Equiv.prodComm (Fin n) (Fin n)).trans (Equiv.prodCongr p p))) :=
      rfl
    rw [h3, ← Multiset.map_map,
      map_univ_perm ((Equiv.prodComm (Fin n) (Fin n)).trans
        (Equiv.prodCongr p p))]
    rfl
  refine ⟨fun a b => hsym (p b) (p a), fun a b => hsym (p b) (p a), hq, ?_,
    ?_, ?_⟩
  · rw [hts, hts, hq]
  · intro a
    show Finset.univ.val.map (fun b => reorder_consensus_matrix M (⇑p) a b) =
      rowMultiset M (p a)
    have hf : (fun b => reorder_consensus_matrix M (⇑p) a b) =
        ((fun c => M (p a) c) ∘ ⇑p) := funext fun b => hsym (p b) (p a)
    rw [hf, ← Multiset.map_map, map_univ_perm p]
    rfl
  · intro b
    show Finset.univ.val.map (fun a => reorder_consensus_matrix M (⇑p) a b) =
      colMultiset M (p b)
    have hf : (fun a => reorder_consensus_matrix M (⇑p) a b) =
        ((fun c => M c (p b)) ∘ ⇑p) := funext fun a => hsym (p b) (p a)
    rw [hf, ← Multiset.map_map, map_univ_perm p]
    rfl

/-- Witness for C9 on a concrete symmetric 2×2 matrix and the transposing
permutation. -/
theorem C9_reorder_joint_permutation_witness :
    reorder_consensus_matrix M2ex (⇑(Equiv.swap (0 : Fin 2) 1)) 0 1 =
      M2ex (Equiv.swap (0 : Fin 2) 1 0) (Equiv.swap (0 : Fin 2) 1 1) ∧
    entriesMultiset (reorder_consensus_matrix M2ex
      (⇑(Equiv.swap (0 : Fin 2) 1))) = entriesMultiset M2ex := by
  have h := C9_reorder_joint_permutation M2ex (Equiv.swap (0 : Fin 2) 1)
    (fun i j => by fin_cases i <;> fin_cases j <;> rfl)
  exact ⟨h.1 0 1, h.2.2.1⟩

end ConsensusClusterRepo
